import Mathlib

/-!
Shallow embedding of the hexrails repository (hex tile geometry, rail graph,
trail model, coupling and uncoupling engine, crash policy, savegame loader)
together with theorems settling the frozen claims about it.

Modelling conventions:
* Rust `u8`, `u16`, `u32`, `usize` fields are modelled as `Nat`; wherever an
  overflowing or wrapping conversion occurs in the source (for example the
  `as i16` cast in the uncoupling system) the wrap is modelled explicitly.
* Rust `f32` values (`path_progress`, velocities) are modelled as exact
  rationals `ℚ`; the claims under study concern the arithmetic structure of
  the code, not floating point rounding.
* A Rust function that can panic is modelled as an `Option`-returning
  function, `none` standing for the panic (no resulting state).
* Code of the repository that is referenced but whose defining file is not
  part of the snapshot (the `Trail` methods `trim_front`, `trim_back`,
  `point_on_trail`, `reverse`, `check_invariant`, `remove_lead` and the
  `reverse_train` helper system of the current `trains` module) is modelled
  from the specification; each such definition carries a doc comment saying
  so.
-/

namespace HexRails

/-- The six directions of the hexagonal grid, `src/tilemap.rs`.
The Rust type is a newtype over `u8`; the value is modelled as a `Nat`
(the wrapping `as u8` cast in `from_sixth_turns` is modelled by `% 256`). -/
structure TileSide where
  val : Nat
  deriving DecidableEq, Repr

/-- `TileSide::from_sixth_turns(turns: i8)`: `TileSide((turns % 6) as u8)`.
Rust `%` on `i8` is truncated division remainder (`Int.tmod`); the `as u8`
cast wraps modulo 256 (`Int.emod` by 256 of the possibly negative value). -/
def TileSide.from_sixth_turns (turns : Int) : TileSide :=
  ⟨((turns.tmod 6) % 256).toNat⟩

def TileSide.EAST : TileSide := ⟨0⟩

def TileSide.NORTH_EAST : TileSide := ⟨1⟩

def TileSide.NORTH_WEST : TileSide := ⟨2⟩

def TileSide.WEST : TileSide := ⟨3⟩

def TileSide.SOUTH_WEST : TileSide := ⟨4⟩

def TileSide.SOUTH_EAST : TileSide := ⟨5⟩

/-- The value of `n as i8` for a `u8` value `n` (wrapping cast). -/
def i8_of_u8 (n : Nat) : Int :=
  if n % 256 < 128 then ((n % 256 : Nat) : Int) else ((n % 256 : Nat) : Int) - 256

/-- Wrap an integer into the `i8` range (the small additions below are
modelled wrapping; for the six in-range directions, the only values the
game constructs, they stay far from the `i8` bounds and no wrap occurs). -/
def i8_wrap (z : Int) : Int := ((z + 128) % 256) - 128

/-- `TileSide::opposite`: `from_sixth_turns(self.0 as i8 + 3)`. -/
def TileSide.opposite (s : TileSide) : TileSide :=
  TileSide.from_sixth_turns (i8_wrap (i8_of_u8 s.val + 3))

/-- `TileSide::curve_right`: `from_sixth_turns(self.0 as i8 + 2)`. -/
def TileSide.curve_right (s : TileSide) : TileSide :=
  TileSide.from_sixth_turns (i8_wrap (i8_of_u8 s.val + 2))

/-- `TileSide::curve_left`: `from_sixth_turns(self.0 as i8 + 4)`. -/
def TileSide.curve_left (s : TileSide) : TileSide :=
  TileSide.from_sixth_turns (i8_wrap (i8_of_u8 s.val + 4))

/-- Axial hex coordinate `TileCoordinate(pub i32, pub i32)`. -/
structure TileCoordinate where
  q : Int
  r : Int
  deriving DecidableEq, Repr

/-- `TileCoordinate::neighbor`, `src/tilemap.rs`: the six-case match; the
wildcard branch panics (`Tile side not in range 0..6`), modelled as `none`. -/
def TileCoordinate.neighbor (c : TileCoordinate) (side : TileSide) :
    Option TileCoordinate :=
  if side = TileSide.EAST then some ⟨c.q + 1, c.r⟩
  else if side = TileSide.WEST then some ⟨c.q - 1, c.r⟩
  else if side = TileSide.NORTH_EAST then some ⟨c.q, c.r + 1⟩
  else if side = TileSide.NORTH_WEST then some ⟨c.q - 1, c.r + 1⟩
  else if side = TileSide.SOUTH_EAST then some ⟨c.q + 1, c.r - 1⟩
  else if side = TileSide.SOUTH_WEST then some ⟨c.q, c.r - 1⟩
  else none

/-- `TileFace`: the face of the tile at `tile` facing from `side`;
the rail graph node type (called `Joint` in the newer modules). -/
structure TileFace where
  tile : TileCoordinate
  side : TileSide
  deriving DecidableEq, Repr

/-- The newer modules refer to `TileFace` as `Joint`. -/
abbrev Joint := TileFace

/-- `TileFace::opposite`: the same grid edge in the opposite direction,
`TileFace { tile: self.tile.neighbor(self.side), side: self.side.opposite() }`.
`none` models the panic inside `neighbor` for an out-of-range side. -/
def TileFace.opposite (j : TileFace) : Option TileFace :=
  (j.tile.neighbor j.side).map (fun t => ⟨t, j.side.opposite⟩)

/-- Modelled from the spec: `Joint::next_straight` is referenced from
`src/railroad.rs` but defined in a tilemap version missing from the
snapshot. Per the spec a straight track entering the tile through face
`side` leaves through the opposite face; the end joint is the entered face
of the next tile, which carries the same side value. -/
def TileFace.next_straight (j : TileFace) : Option TileFace :=
  (j.tile.neighbor j.side.opposite).map (fun t => ⟨t, j.side⟩)

/-- Modelled from the spec: `Joint::next_left` (missing from the snapshot,
referenced from `src/railroad.rs`). A left-curved track leaves through the
face `side.curve_left()`; the end joint is that edge seen from the next
tile. -/
def TileFace.next_left (j : TileFace) : Option TileFace :=
  (j.tile.neighbor j.side.curve_left).map (fun t => ⟨t, j.side.curve_left.opposite⟩)

/-- Modelled from the spec: `Joint::next_right` (missing from the snapshot,
referenced from `src/railroad.rs`). A right-curved track leaves through the
face `side.curve_right()`; the end joint is that edge seen from the next
tile. -/
def TileFace.next_right (j : TileFace) : Option TileFace :=
  (j.tile.neighbor j.side.curve_right).map (fun t => ⟨t, j.side.curve_right.opposite⟩)

/-- `TrackType`, `src/railroad.rs`. -/
inductive TrackType where
  | Straight
  | CurvedLeft
  | CurvedRight
  deriving DecidableEq, Repr

/-- `Track`, `src/railroad.rs`. -/
structure Track where
  joint : Joint
  heading : TrackType
  deriving DecidableEq, Repr

/-- `Track::end_joint`, `src/railroad.rs`. -/
def Track.end_joint (t : Track) : Option Joint :=
  match t.heading with
  | TrackType.Straight => t.joint.next_straight
  | TrackType.CurvedLeft => t.joint.next_left
  | TrackType.CurvedRight => t.joint.next_right

/-- `Track::from_joints`, `src/railroad.rs`: which track kind, if any,
directly connects `start` to `endj`. -/
def Track.from_joints (start endj : Joint) : Option Track :=
  if start.next_left = some endj then
    some ⟨start, TrackType.CurvedLeft⟩
  else if start.next_right = some endj then
    some ⟨start, TrackType.CurvedRight⟩
  else if start.next_straight = some endj then
    some ⟨start, TrackType.Straight⟩
  else none

/-- The rail graph of `src/railroad.rs` (`DiGraphMap<Joint, TrackProperties>`)
modelled as its directed edge list without duplicates; the petgraph map
stores at most one edge per ordered node pair. -/
abbrev RailGraph := List (Joint × Joint)

/-- `DiGraphMap::add_edge`: inserts the edge and returns whether an edge
between the two nodes already existed (petgraph returns the old weight;
only its `is_some` is used by the caller). -/
def RailGraph.add_edge (g : RailGraph) (u v : Joint) : Bool × RailGraph :=
  if (u, v) ∈ g then (true, g) else (false, (u, v) :: g)

/-- `RailGraph::add_double_track`, `src/railroad.rs` lines 103 to 120:
inserts `track.joint -> end` and `end.opposite() -> track.joint.opposite()`
and returns `prev_edge_1.is_none()`. `none` models a panic inside
`end_joint` or `opposite` for an out-of-range side. -/
def RailGraph.add_double_track (g : RailGraph) (track : Track) :
    Option (Bool × RailGraph) :=
  match track.end_joint with
  | none => none
  | some endJoint =>
    match endJoint.opposite, track.joint.opposite with
    | some endOpp, some jointOpp =>
      some (!(g.add_edge track.joint endJoint).1,
        ((g.add_edge track.joint endJoint).2.add_edge endOpp jointOpp).2)
    | _, _ => none

/-- The graph states reachable through the public mutation
`add_double_track` starting from the empty graph. -/
inductive RailGraph.Reachable : RailGraph → Prop where
  | empty : RailGraph.Reachable []
  | step {g g2 : RailGraph} {tr : Track} {b : Bool} :
      RailGraph.Reachable g → g.add_double_track tr = some (b, g2) →
      RailGraph.Reachable g2

/-! ## Trail model

The `Trail` component lives in the current `trains` module, which is not part
of the snapshot (the `trains.rs` present is a stale earlier version defining
`TrainHead`); its fields are visible from `src/trainbuilder.rs` and
`src/savegame.rs`: `path : Vec<Joint>`, `path_progress : f32`,
`length : u16`. -/

/-- The per-train trail: path, fractional front position, and vehicle count. -/
structure Trail where
  path : List Joint
  path_progress : ℚ
  length : Nat
  deriving DecidableEq, Repr

/-- Modelled from the spec: `Trail::check_invariant` is missing from the
snapshot. Per the spec the invariant is `path.len() >= length + 1` and
`length <= path_progress <= path.len() - 1` (the small floating tolerance
is dropped in the exact rational model). -/
def Trail.check_invariant (t : Trail) : Bool :=
  decide (t.length + 1 ≤ t.path.length) &&
    decide ((t.length : ℚ) ≤ t.path_progress) &&
    decide (t.path_progress ≤ (t.path.length : ℚ) - 1)

/-- Modelled from the spec: `Trail::trim_front` is missing from the
snapshot. Its call site in `clone_from_parts` passes a shared `&Trail`
receiver, so it returns the trimmed leading view of the path without
mutating the trail: per the spec it drops the elements far ahead of the
active window, keeping indices `0` through `ceil(progress) + 1`. The call
`controller.trim_front()` in `reverse_train_system` discards this returned
view and therefore leaves the trail unchanged. -/
def Trail.trim_front (t : Trail) : List Joint :=
  t.path.take (⌈t.path_progress⌉ + 2).toNat

/-- Modelled from the spec: `Trail::trim_back` is missing from the
snapshot. Like `trim_front` it is called on a shared receiver and returns a
view: per the spec it drops the elements far behind the active window,
keeping the path from index `floor(progress) - length - 1` onward. -/
def Trail.trim_back (t : Trail) : List Joint :=
  t.path.drop (⌊t.path_progress⌋ - (t.length : Int) - 1).toNat

/-- Modelled from the spec: `Trail::point_on_trail(offset)` is missing from
the snapshot. Per the spec it returns the two path joints bracketing the
position `offset` behind the front together with the fractional
interpolation value, and fails if that position falls outside the stored
path. -/
def Trail.point_on_trail (t : Trail) (offset : ℚ) : Option (Joint × Joint × ℚ) :=
  let x := t.path_progress - offset
  let i := ⌊x⌋
  if 0 ≤ i then
    match t.path[i.toNat]?, t.path[i.toNat + 1]? with
    | some a, some b => some (a, b, x - (i : ℚ))
    | _, _ => none
  else none

/-- Replace every joint of the list by its opposite (the
`for d in path.iter_mut() ... d.opposite()` loop); `none` models the panic
of `opposite` on an out-of-range side. -/
def opposite_all : List Joint → Option (List Joint)
  | [] => some []
  | j :: rest =>
    match j.opposite, opposite_all rest with
    | some jo, some ros => some (jo :: ros)
    | _, _ => none

/-- Modelled from the spec: `Trail::reverse` is missing from the snapshot.
Per the spec it reverses the path order, replaces every joint with its
opposite, and recomputes the progress as
`path.len() - old_progress + length - 1`. `none` models the panic of
`opposite` on an out-of-range side. -/
def Trail.reverse (t : Trail) : Option Trail :=
  (opposite_all t.path.reverse).map (fun revPath =>
    ⟨revPath, (revPath.length : ℚ) - t.path_progress + (t.length : ℚ) - 1, t.length⟩)

/-- Modelled from the spec: `Trail::remove_lead` is missing from the
snapshot. Per the spec (uncoupling step 2) it trims the now-unneeded
leading path elements: the elements ahead of the active window are
dropped exactly as in `trim_front`, here mutating the path; progress and
length are unchanged. -/
def Trail.remove_lead (t : Trail) : Trail :=
  ⟨t.path.take (⌈t.path_progress⌉ + 2).toNat, t.path_progress, t.length⟩

/-- `Trail::clone_from_parts`, `src/trainbuilder.rs` lines 84 to 115.
Appends `back` to `front`: combines the trimmed back part with the trimmed
front part deduplicated at the overlap joint, recomputes the progress by
searching for the joint bracketing the front trail head, and validates the
result. `none` models every `Err` return (the coupling is then rejected
gracefully by the caller). -/
def Trail.clone_from_parts (front back : Trail) : Option Trail :=
  let front_part := front.trim_back
  let back_part := back.trim_front
  match front_part.findIdx? (fun j => back_part.getLast? = some j) with
  | none => none
  | some overlap_index =>
    let path := back_part ++ front_part.drop (overlap_index + 1)
    match front.point_on_trail 0 with
    | none => none
    | some (f_start, _, progress_frac) =>
      match path.findIdx? (fun j => j = f_start) with
      | none => none
      | some progress_int =>
        let combined : Trail :=
          ⟨path, (progress_int : ℚ) + progress_frac, front.length + back.length⟩
        if combined.check_invariant then some combined else none

/-! ## Sixteen-bit helpers

The uncoupling system passes the index offset through an `as i16` cast;
`as` casts in Rust always wrap, so the wrap is modelled explicitly.
Overflow-checked arithmetic (the debug profile) is modelled by `none`. -/

/-- The value of `n as i16` for a `u16` value `n` (wrapping cast). -/
def i16_of_u16 (n : Nat) : Int :=
  if n % 65536 < 32768 then ((n % 65536 : Nat) : Int) else ((n % 65536 : Nat) : Int) - 65536

/-- `u16::saturating_add_signed`: clamps the sum into the `u16` range. -/
def u16_saturating_add_signed (p : Nat) (d : Int) : Nat :=
  (min 65535 (max 0 ((p : Int) + d))).toNat

/-! ## The trainbuilder world

The relevant entity state: trains (entity id with their `Trail`) and
vehicles (entity id, parent train entity, `TrainIndex` position). -/

/-- Bumper orientation markers on each vehicle (`BumperNode` of the missing
`trains` module, used throughout `src/trainbuilder.rs`). -/
inductive BumperNode where
  | Front
  | Back
  deriving DecidableEq, Repr

/-- The slice of the entity world the coupling and uncoupling systems
touch: train entities with their trails, and vehicle entities with their
parent train and index position. -/
structure World where
  trains : List (Nat × Trail)
  vehicles : List (Nat × Nat × Nat)
  deriving DecidableEq, Repr

def World.lookupTrain (w : World) (id : Nat) : Option Trail :=
  (w.trains.find? (fun p => p.1 = id)).map Prod.snd

/-- `commands.entity(id).insert(trail)`: overwrite the trail component. -/
def World.setTrail (w : World) (id : Nat) (t : Trail) : World :=
  ⟨w.trains.map (fun p => if p.1 = id then (id, t) else p), w.vehicles⟩

/-- `commands.entity(id).despawn()`: the back train record is removed; its
children have already been moved. -/
def World.removeTrain (w : World) (id : Nat) : World :=
  ⟨w.trains.filter (fun p => p.1 ≠ id), w.vehicles⟩

/-- The vehicle children of a train entity. -/
def World.childrenOf (w : World) (id : Nat) : List Nat :=
  (w.vehicles.filter (fun v => v.2.1 = id)).map (fun v => v.1)

/-- `reindex_train`, `src/trainbuilder.rs` lines 416 to 431: adds the `i16`
offset `diff` to the position of every vehicle of the train, with
`u16::saturating_add_signed`. -/
def World.reindex_train (w : World) (id : Nat) (diff : Int) : World :=
  ⟨w.trains,
    w.vehicles.map (fun v =>
      if v.2.1 = id then (v.1, v.2.1, u16_saturating_add_signed v.2.2 diff) else v)⟩

/-- `set_train_length`, `src/trainbuilder.rs` lines 401 to 410. -/
def World.set_train_length (w : World) (id len : Nat) : World :=
  ⟨w.trains.map (fun p => if p.1 = id then (p.1, { p.2 with length := len }) else p),
    w.vehicles⟩

/-- Reparent the listed vehicle entities to the train `newParent`
(`push_children`). -/
def World.reparent (w : World) (ids : List Nat) (newParent : Nat) : World :=
  ⟨w.trains,
    w.vehicles.map (fun v => if v.1 ∈ ids then (v.1, newParent, v.2.2) else v)⟩

/-- `uncoupling_system`, `src/trainbuilder.rs` lines 339 to 397, for one
`TrainClickEvent` on `train` at fence-post `bumper_index`; `newId` is the
fresh entity id Bevy hands the spawned back train. The deferred commands
are applied in queue order: spawn the back train with the cloned, shifted
and lead-trimmed trail, reparent the vehicles with index at or beyond the
fence post, add `-(front_length as i16)` to their indices, and shrink the
original train. `none` models a checked-arithmetic panic (the `u16`
subtraction `trail.length - ev.bumper_index` underflowing, or the `i16`
negation overflowing at `front_length = 32768`). -/
def World.uncouple (w : World) (train bumper_index newId : Nat) : Option World :=
  match w.lookupTrain train with
  | none => some w
  | some trail =>
    if trail.length < bumper_index then none
    else
      let front_length := bumper_index
      let back_length := trail.length - bumper_index
      if front_length = 0 ∨ back_length = 0 then some w
      else
        let fl16 := i16_of_u16 front_length
        if fl16 = -32768 then none
        else
          let to_reparent := ((w.vehicles.filter
            (fun v => v.2.1 = train ∧ bumper_index ≤ v.2.2)).map (fun v => v.1))
          let back_trail := Trail.remove_lead
            ⟨trail.path, trail.path_progress - (front_length : ℚ), back_length⟩
          let w1 : World := ⟨(newId, back_trail) :: w.trains, w.vehicles⟩
          let w2 := (w1.reparent to_reparent newId).reindex_train newId (-fl16)
          some (w2.set_train_length train front_length)

/-- Modelled from the spec: the `reverse_train` one-shot system queued by
`couple_trains` is part of the missing `trains` module. Per the spec
(coupling step 2 with the trail reversal of the trail model) it reverses
the trail of the train in place and reindexes its vehicles to
`length - position - 1` (the `u16` subtraction is modelled as truncated
natural subtraction; the operands satisfy `position < length` for every
invariant-respecting train). -/
def World.reverse_train (w : World) (id : Nat) : Option World :=
  match w.lookupTrain id with
  | none => some w
  | some t =>
    match t.reverse with
    | none => none
    | some t2 =>
      some ⟨w.trains.map (fun p => if p.1 = id then (id, t2) else p),
        w.vehicles.map (fun v =>
          if v.2.1 = id then (v.1, v.2.1, t.length - v.2.2 - 1) else v)⟩

/-- The orientation resolution of `couple_trains`,
`src/trainbuilder.rs` lines 236 to 244: which train is the front, which is
the back, and which entity (if any) must be reversed. -/
def coupleOrientation (t1 : Nat) (d1 : BumperNode) (t2 : Nat) (d2 : BumperNode)
    (trail1 trail2 : Trail) : ((Nat × Trail) × (Nat × Trail) × Option Nat) :=
  match d1, d2 with
  | BumperNode.Front, BumperNode.Back => ((t2, trail2), (t1, trail1), none)
  | BumperNode.Back, BumperNode.Front => ((t1, trail1), (t2, trail2), none)
  | BumperNode.Front, BumperNode.Front => ((t1, trail1), (t2, trail2), some t1)
  | BumperNode.Back, BumperNode.Back => ((t1, trail1), (t2, trail2), some t2)

/-- The oriented front and back trails exactly as `couple_trains` passes
them to `clone_from_parts`: the side designated by the orientation
resolution is first reversed on a clone. `none` models the panic of the
clone reversal (and a missing train, for which the Rust early-returns; the
rejection theorem below does not rely on that collapse since its
conclusion also covers those worlds). -/
def World.orientedCloneInput (w : World) (t1 : Nat) (d1 : BumperNode)
    (t2 : Nat) (d2 : BumperNode) : Option (Trail × Trail) :=
  match w.lookupTrain t1 with
  | none => none
  | some trail1 =>
    match w.lookupTrain t2 with
    | none => none
    | some trail2 =>
      match coupleOrientation t1 d1 t2 d2 trail1 trail2 with
      | ((front_id, front), (back_id, back), rev) =>
        match rev with
        | none => some (front, back)
        | some r =>
          if r = front_id then
            match front.reverse with
            | none => none
            | some f2 => some (f2, back)
          else if r = back_id then
            match back.reverse with
            | none => none
            | some b2 => some (front, b2)
          else some (front, back)

/-- `couple_trains`, `src/trainbuilder.rs` lines 222 to 290, for one
resolved bumper contact `(t1, d1, t2, d2)`. On a successful splice the
queued commands run in order: reverse the designated train entity, add
`front_length as i16` to the indices of the back train vehicles, overwrite
the front trail with the combined trail, reparent the back train vehicles
to the front train, and despawn the back train. If the splice fails
(`clone_from_parts` returns `Err`) the function logs and returns with no
command queued. `none` models a panic inside the clone reversal. -/
def World.couple_trains (w : World) (t1 : Nat) (d1 : BumperNode)
    (t2 : Nat) (d2 : BumperNode) : Option World :=
  match w.lookupTrain t1 with
  | none => some w
  | some trail1 =>
    match w.lookupTrain t2 with
    | none => some w
    | some trail2 =>
      let ((front_id, front), (back_id, back), rev) :=
        coupleOrientation t1 d1 t2 d2 trail1 trail2
      let front_len := front.length
      let cloneResult : Option (Option Trail) :=
        match rev with
        | none => some (Trail.clone_from_parts front back)
        | some r =>
          if r = front_id then
            match front.reverse with
            | none => none
            | some f => some (Trail.clone_from_parts f back)
          else if r = back_id then
            match back.reverse with
            | none => none
            | some b => some (Trail.clone_from_parts front b)
          else some (Trail.clone_from_parts front back)
      match cloneResult with
      | none => none
      | some none => some w
      | some (some new_trail) =>
        let backChildren := w.childrenOf back_id
        let step1 : Option World :=
          match rev with
          | none => some w
          | some r => w.reverse_train r
        match step1 with
        | none => none
        | some w1 =>
          let w2 := w1.reindex_train back_id (i16_of_u16 front_len)
          let w3 := (w2.setTrail front_id new_trail).reparent backChildren front_id
          some (w3.removeTrain back_id)

/-! ## Manual driving, `src/driving.rs` -/

/-- `reverse_train_system`, `src/driving.rs` lines 104 to 135, for one
player-controlled train with its vehicle children `(entity, position)`.
A moving train is skipped. Otherwise the path is reversed with every joint
replaced by its opposite, the progress is recomputed as
`path.len() - old_progress + length - 1`, the call `controller.trim_front()`
computes a trimmed view whose result is discarded (see `Trail.trim_front`),
and each vehicle position becomes `length - position - 1`. `none` models
the panic of `opposite` on an out-of-range side. -/
def reverse_train_system (t : Trail) (velocity : ℚ) (wagons : List (Nat × Nat)) :
    Option (Trail × List (Nat × Nat)) :=
  if velocity ≠ 0 then some (t, wagons)
  else
    match opposite_all t.path.reverse with
    | none => none
    | some revPath =>
      let t1 : Trail :=
        ⟨revPath, (revPath.length : ℚ) - t.path_progress + (t.length : ℚ) - 1, t.length⟩
      let _trimmedView := t1.trim_front
      some (t1, wagons.map (fun p => (p.1, t.length - p.2 - 1)))

/-- The neighbor chosen by the `edges_directed(..).for_each` loop of
`auto_extend_train_path`: for a player-controlled train an edge whose track
heading matches the preferred direction wins (the last such edge), else the
first edge seen is kept. The outer `none` models the
`expect("Invariant: graph only has track edges")` panic. -/
def select_next (g : RailGraph) (path_end : Joint) (isPlayer : Bool)
    (preferred : TrackType) : Option (Option Joint) :=
  (g.filter (fun e => e.1 = path_end)).foldlM
    (fun acc e =>
      if isPlayer then
        match Track.from_joints e.1 e.2 with
        | none => none
        | some tr =>
          if tr.heading = preferred then some (some e.2)
          else if acc = none then some (some e.2) else some acc
      else if acc = none then some (some e.2) else some acc)
    none

/-- `auto_extend_train_path`, `src/driving.rs` lines 31 to 85, for one
train. If the progress is within half a unit of the path end, a neighbor
of the last joint is chosen and pushed; if the path length after the push
is at least `length + 5` the oldest element is removed and the progress
decremented by one. `none` models the panics (`usize` underflow of
`path.len() - 1` on an empty path, the `expect` on the last element, and
the track-edge `expect` inside the selection). -/
def auto_extend_train_path (g : RailGraph) (t : Trail) (isPlayer : Bool)
    (preferred : TrackType) : Option Trail :=
  if t.path.length = 0 then none
  else
    let max_progress : ℚ := ((t.path.length - 1 : ℕ) : ℚ)
    if t.path_progress + 1/2 > max_progress then
      match t.path.getLast? with
      | none => none
      | some path_end =>
        match select_next g path_end isPlayer preferred with
        | none => none
        | some none => some t
        | some (some next_tile) =>
          let path1 := t.path ++ [next_tile]
          if t.length + 5 ≤ path1.length then
            some ⟨path1.drop 1, t.path_progress - 1, t.length⟩
          else
            some ⟨path1, t.path_progress, t.length⟩
    else some t

/-! ## The stale fixed-step tick, `src/trains.rs` -/

/-- `TrainHead`, `src/trains.rs` lines 86 to 95 (the stale `trains`
module): same shape as `Trail` with a `u32` length. -/
structure TrainHead where
  path_progress : ℚ
  length : Nat
  path : List Joint
  deriving DecidableEq, Repr

/-- `f32::clamp` for `lo <= hi`, following the Rust definition branch by
branch. -/
def rat_clamp (x lo hi : ℚ) : ℚ := if x < lo then lo else if hi < x then hi else x

/-- `tick_trains`, `src/trains.rs` lines 373 to 405, for one train: add the
velocity to the progress; if the progress exceeds `path.len() - 1`, extend
the path by the first outgoing neighbor of the last joint, removing the
oldest element and decrementing the progress when the length before the
push is already at least `length + 5`; finally clamp the progress into
`[0, path.len() - 1]`. `none` models the `usize` underflow panic of
`path.len() - 1` on an empty path and the `expect` on the last element. -/
def tick_trains (g : RailGraph) (t : TrainHead) (velocity : ℚ) : Option TrainHead :=
  if t.path.length = 0 then none
  else
    let p1 := t.path_progress + velocity
    let max_progress : ℚ := ((t.path.length - 1 : ℕ) : ℚ)
    let step : Option TrainHead :=
      if p1 > max_progress then
        match t.path.getLast? with
        | none => none
        | some lastJoint =>
          match (g.filter (fun e => e.1 = lastJoint)).head? with
          | none => some ⟨p1, t.length, t.path⟩
          | some e =>
            if t.length + 5 ≤ t.path.length then
              some ⟨p1 - 1, t.length, (t.path.drop 1) ++ [e.2]⟩
            else
              some ⟨p1, t.length, t.path ++ [e.2]⟩
      else some ⟨p1, t.length, t.path⟩
    step.map (fun t1 =>
      ⟨rat_clamp t1.path_progress 0 ((t1.path.length - 1 : ℕ) : ℚ), t1.length, t1.path⟩)

/-! ## Crash policy, `src/collisions.rs` -/

/-- The slice of the world the crash policy touches: train entities with
velocity and crashed marker, vehicle entities with parent train and index. -/
structure CrashWorld where
  trains : List (Nat × ℚ × Bool)
  vehicles : List (Nat × Nat × Nat)
  deriving DecidableEq, Repr

def CrashWorld.lookupVehicle (w : CrashWorld) (id : Nat) : Option (Nat × Nat) :=
  (w.vehicles.find? (fun v => v.1 = id)).map (fun v => v.2)

/-- Insert the `Crashed` marker on the train and zero its velocity (both
keyed on entity existence, as in the source). -/
def CrashWorld.crash (w : CrashWorld) (id : Nat) : CrashWorld :=
  ⟨w.trains.map (fun p => if p.1 = id then (p.1, 0, true) else p), w.vehicles⟩

/-- `crash_on_collision`, `src/collisions.rs` lines 21 to 71, for one
`CollisionEvent::Started(a, b, _)`. Vehicle index positions are `u16`
values; the `+ 1` of the same-train adjacency check is `u16` arithmetic and
is modelled with the wrapping semantics of a release build (`% 2^16`), so
at position 65535 the increment wraps to 0 and the pair `(65535, 0)` is
treated as adjacent; a debug build panics on that increment instead, and
either way no crash happens there. Positions below 65535 never wrap or
panic. -/
def crash_on_collision (w : CrashWorld) (a b : Nat) : CrashWorld :=
  match w.lookupVehicle a, w.lookupVehicle b with
  | some (t1, index1), some (t2, index2) =>
    if t1 = t2 then
      if (index1 + 1) % 65536 = index2 ∨ (index2 + 1) % 65536 = index1 then w
      else (w.crash t1)
    else ((w.crash t1).crash t2)
  | _, _ => w

/-! ## Savegame loader, `src/savegame.rs` -/

/-- `VehicleType` (the `wagon_type` tag of the save shape). -/
inductive VehicleType where
  | Locomotive
  | Wagon
  deriving DecidableEq, Repr

/-- `VehicleStats` (the per-wagon stats of the save shape). -/
structure VehicleStats where
  weight : ℚ
  acceleration_power : ℚ
  braking_power : ℚ
  deriving DecidableEq, Repr

/-- `SaveWagon`, `src/savegame.rs` lines 46 to 50. -/
structure SaveWagon where
  wagon_type : VehicleType
  stats : VehicleStats
  deriving DecidableEq, Repr

/-- The persisted velocity component (`velocity`, `max_velocity`). -/
structure SaveVelocity where
  velocity : ℚ
  max_velocity : ℚ
  deriving DecidableEq, Repr

/-- `SaveTrain`, `src/savegame.rs` lines 37 to 43. -/
structure SaveTrain where
  train : Trail
  velocity : SaveVelocity
  wagons : List SaveWagon
  deriving DecidableEq, Repr

/-- `SaveGame`, `src/savegame.rs` lines 30 to 35. -/
structure SaveGame where
  version : Nat
  network : RailGraph
  trains : List SaveTrain
  deriving DecidableEq, Repr

/-- `CURRENT_SAVEGAME_VERSION`, `src/savegame.rs` line 16. -/
def CURRENT_SAVEGAME_VERSION : Nat := 6

/-- `SaveGame::default`, `src/savegame.rs` lines 52 to 63: the current
version, an empty network, no trains. -/
def SaveGame.default : SaveGame :=
  ⟨CURRENT_SAVEGAME_VERSION, [], []⟩

/-- `SaveGame::from_disk`, `src/savegame.rs` lines 64 to 84. The input is
the combined outcome of reading and `serde_json` parsing the savegame
file; any error falls back to `SaveGame::default`. The version comparison
present in the source is commented out (a `Todo`), so a successfully
parsed savegame is returned as is, whatever its version field holds. -/
def SaveGame.from_disk (parsed : Except String SaveGame) : SaveGame :=
  match parsed with
  | Except.ok savegame => savegame
  | Except.error _ => SaveGame.default

/-! ## Shared concrete values for witnesses and counterexamples -/

/-- The joint on the east face of tile `(i, 0)`. -/
def eastJoint (i : Int) : Joint := ⟨⟨i, 0⟩, TileSide.EAST⟩

/-! ## Claim C8: savegame loading -/

/-- A structurally well-formed savegame whose version field is not the
current version. -/
def badVersionSave : SaveGame :=
  ⟨5, [], [⟨⟨[eastJoint 0, eastJoint 1], 1, 1⟩, ⟨0, 10⟩,
    [⟨VehicleType.Wagon, ⟨5000, 0, 5⟩⟩]⟩]⟩

/-- Counterexample to claim C8: a stored savegame whose version (5) differs
from the current savegame version (6) but parses structurally is NOT
discarded by the loader: `from_disk` returns it verbatim, trains included,
instead of the empty default world the claim requires. The version check in
`SaveGame::from_disk` is commented out (`src/savegame.rs` lines 70 to 76). -/
theorem from_disk_loads_mismatched_version :
    SaveGame.from_disk (Except.ok badVersionSave) = badVersionSave ∧
    badVersionSave.version ≠ CURRENT_SAVEGAME_VERSION ∧
    badVersionSave.trains ≠ [] ∧
    SaveGame.from_disk (Except.ok badVersionSave) ≠ SaveGame.default := by
  refine ⟨rfl, by decide, by decide, by decide⟩

/-- Claim C8 (amended): only a read or structural parse failure makes the
loader discard the file and start from the empty default (current version,
empty network, no trains); a savegame that parses structurally is returned
verbatim whatever its version field holds, because the version comparison
is commented out in the source. -/
theorem from_disk_discards_only_parse_failures :
    (∀ e : String, SaveGame.from_disk (Except.error e) = SaveGame.default) ∧
    SaveGame.default.network = [] ∧
    SaveGame.default.trains = [] ∧
    SaveGame.default.version = CURRENT_SAVEGAME_VERSION ∧
    (∀ sg : SaveGame, SaveGame.from_disk (Except.ok sg) = sg) :=
  ⟨fun _ => rfl, rfl, rfl, rfl, fun _ => rfl⟩

/-! ## Claim C9: direction values stay in range -/

/-- The direction values obtainable from the six named constants by
applying `opposite`, `curve_left` and `curve_right`. -/
inductive GeneratedSide : TileSide → Prop where
  | east : GeneratedSide TileSide.EAST
  | north_east : GeneratedSide TileSide.NORTH_EAST
  | north_west : GeneratedSide TileSide.NORTH_WEST
  | west : GeneratedSide TileSide.WEST
  | south_west : GeneratedSide TileSide.SOUTH_WEST
  | south_east : GeneratedSide TileSide.SOUTH_EAST
  | opp {s : TileSide} : GeneratedSide s → GeneratedSide s.opposite
  | left {s : TileSide} : GeneratedSide s → GeneratedSide s.curve_left
  | right {s : TileSide} : GeneratedSide s → GeneratedSide s.curve_right

/-- For a direction value in range, `TileCoordinate::neighbor` does not hit
its panic branch. -/
theorem neighbor_isSome_of_val_lt (c : TileCoordinate) (s : TileSide)
    (h : s.val < 6) : (c.neighbor s).isSome := by
  obtain ⟨v⟩ := s
  simp only at h
  interval_cases v <;> rfl

/-- Claim C9: every direction obtained from the six named constants or by
applying `opposite`, `curve_left` or `curve_right` to such a value has its
internal representation in `0..=5`, so `TileCoordinate::neighbor` never
reaches its panic branch on such a direction. -/
theorem generated_side_in_range_neighbor_total (s : TileSide)
    (hs : GeneratedSide s) :
    s.val < 6 ∧ ∀ c : TileCoordinate, (c.neighbor s).isSome := by
  have hval : s.val < 6 := by
    induction hs with
    | east => decide
    | north_east => decide
    | north_west => decide
    | west => decide
    | south_west => decide
    | south_east => decide
    | opp _ ih =>
      rename_i s0 _
      obtain ⟨v⟩ := s0
      simp only at ih
      interval_cases v <;> decide
    | left _ ih =>
      rename_i s0 _
      obtain ⟨v⟩ := s0
      simp only at ih
      interval_cases v <;> decide
    | right _ ih =>
      rename_i s0 _
      obtain ⟨v⟩ := s0
      simp only at ih
      interval_cases v <;> decide
  exact ⟨hval, fun c => neighbor_isSome_of_val_lt c s hval⟩

/-- Witness for claim C9 at the concrete direction
`EAST.curve_left.opposite` and the origin tile. -/
theorem generated_side_in_range_neighbor_total_witness :
    (TileSide.EAST.curve_left.opposite).val < 6 ∧
      ((⟨0, 0⟩ : TileCoordinate).neighbor TileSide.EAST.curve_left.opposite).isSome := by
  have h := generated_side_in_range_neighbor_total _
    (GeneratedSide.opp (GeneratedSide.left GeneratedSide.east))
  exact ⟨h.1, h.2 ⟨0, 0⟩⟩

/-! ## Claim C10: crash policy -/

/-- Counterexample to claim C10 as stated over all index pairs: two
vehicles of the same train at positions 65535 and 0 (position 65535 is
attainable through the saturating reindex of the uncoupling system) differ
by 65535, not by one, so the claim demands the train be marked crashed
with zero velocity; but the wrapping `u16` increment turns `65535 + 1`
into `0`, the pair is treated as adjacent, and the world is returned
unchanged (velocity still 5, no crashed marker). A debug build panics on
that increment instead; either way the claimed crash does not happen. -/
theorem crash_on_collision_wrap_counterexample :
    crash_on_collision ⟨[(0, 5, false)], [(10, 0, 65535), (11, 0, 0)]⟩ 10 11 =
      ⟨[(0, 5, false)], [(10, 0, 65535), (11, 0, 0)]⟩ ∧
    ¬((65535 : Nat) + 1 = 0 ∨ (0 : Nat) + 1 = 65535) := by
  refine ⟨by decide, by decide⟩

/-- Claim C10 (amended): for a collision-start between two vehicles whose
index positions are below 65535 (true of every index below the `u16` train
length, where the increment neither wraps nor panics): a same-train pair
with indices differing by exactly one leaves the world unchanged; a
same-train pair with non-adjacent indices and any two-train pair marks
every involved train crashed with velocity zero (and touches nothing else:
vehicles unchanged, uninvolved trains unchanged). At the extremal
same-train pair `(65535, 0)` the wrapping increment suppresses the crash
instead (see the counterexample). -/
theorem crash_on_collision_spec (w : CrashWorld) (a b t1 i1 t2 i2 : Nat)
    (ha : w.lookupVehicle a = some (t1, i1))
    (hb : w.lookupVehicle b = some (t2, i2)) :
    (t1 = t2 ∧ i1 < 65535 ∧ i2 < 65535 ∧ (i1 + 1 = i2 ∨ i2 + 1 = i1) →
      crash_on_collision w a b = w) ∧
    (t1 = t2 → i1 < 65535 → i2 < 65535 → ¬(i1 + 1 = i2 ∨ i2 + 1 = i1) →
      (crash_on_collision w a b).vehicles = w.vehicles ∧
      (crash_on_collision w a b).trains =
        w.trains.map (fun p => if p.1 = t1 ∨ p.1 = t2 then (p.1, 0, true) else p)) ∧
    (t1 ≠ t2 →
      (crash_on_collision w a b).vehicles = w.vehicles ∧
      (crash_on_collision w a b).trains =
        w.trains.map (fun p => if p.1 = t1 ∨ p.1 = t2 then (p.1, 0, true) else p)) := by
  unfold crash_on_collision
  rw [ha, hb]
  dsimp only
  refine ⟨?_, ?_, ?_⟩
  · rintro ⟨hteq, hi1, hi2, hadj⟩
    subst hteq
    rw [if_pos rfl, if_pos (by omega)]
  · intro hteq hi1 hi2 hno
    subst hteq
    rw [if_pos rfl, if_neg (by omega)]
    refine ⟨rfl, ?_⟩
    simp only [CrashWorld.crash, or_self]
  · intro hteq
    rw [if_neg hteq]
    refine ⟨rfl, ?_⟩
    simp only [CrashWorld.crash, List.map_map]
    apply List.map_congr_left
    intro p _
    have hteq2 : t2 ≠ t1 := fun hc => hteq hc.symm
    by_cases h1 : p.1 = t1
    · by_cases h2 : p.1 = t2 <;> simp [Function.comp, h1, h2, hteq, hteq2]
    · by_cases h2 : p.1 = t2 <;> simp [Function.comp, h1, h2, hteq, hteq2]

/-- Witness for claim C10: an adjacent same-train pair is ignored and a
two-train collision crashes both trains. -/
theorem crash_on_collision_spec_witness :
    (crash_on_collision ⟨[(0, 5, false)], [(10, 0, 0), (11, 0, 1)]⟩ 10 11 =
      ⟨[(0, 5, false)], [(10, 0, 0), (11, 0, 1)]⟩) ∧
    ((crash_on_collision ⟨[(0, 5, false), (1, 3, false)],
        [(10, 0, 0), (11, 1, 0)]⟩ 10 11).trains =
      ([(0, 5, false), (1, 3, false)] : List (Nat × ℚ × Bool)).map
        (fun p => if p.1 = 0 ∨ p.1 = 1 then (p.1, 0, true) else p)) := by
  constructor
  · exact (crash_on_collision_spec ⟨[(0, 5, false)], [(10, 0, 0), (11, 0, 1)]⟩
      10 11 0 0 0 1 (by decide) (by decide)).1
      ⟨rfl, by decide, by decide, Or.inl rfl⟩
  · exact ((crash_on_collision_spec ⟨[(0, 5, false), (1, 3, false)],
      [(10, 0, 0), (11, 1, 0)]⟩ 10 11 0 0 1 0 (by decide) (by decide)).2.2
      (by decide)).2

/-! ## Claim C7: progress stays clamped after a tick -/

theorem rat_clamp_nonneg (x hi : ℚ) (hhi : 0 ≤ hi) : 0 ≤ rat_clamp x 0 hi := by
  unfold rat_clamp
  split_ifs with h1 h2
  · exact le_refl 0
  · exact hhi
  · exact le_of_not_lt h1

theorem rat_clamp_le (x lo hi : ℚ) (hlo : lo ≤ hi) : rat_clamp x lo hi ≤ hi := by
  unfold rat_clamp
  split_ifs with h1 h2
  · exact hlo
  · exact le_refl hi
  · exact le_of_not_lt h2

/-- Claim C7: for a train with a nonempty path, `tick_trains` completes and
leaves `path_progress` between `0` and `path.len() - 1` (for the possibly
extended path); in particular a train driven past the path end at a joint
with no outgoing neighbor is clamped back to `path.len() - 1`. -/
theorem tick_trains_progress_clamped (g : RailGraph) (t : TrainHead) (v : ℚ)
    (h : t.path ≠ []) :
    (tick_trains g t v).isSome ∧
    ∀ t2, tick_trains g t v = some t2 →
      0 ≤ t2.path_progress ∧ t2.path_progress ≤ ((t2.path.length - 1 : ℕ) : ℚ) := by
  have hlen0 : t.path.length ≠ 0 := fun hc => h (List.length_eq_zero.mp hc)
  have hgl : t.path.getLast?.isSome := List.getLast?_isSome.mpr h
  obtain ⟨lastJ, hlast⟩ := Option.isSome_iff_exists.mp hgl
  constructor
  · unfold tick_trains
    rw [if_neg hlen0]
    dsimp only
    rw [hlast]
    by_cases hp : t.path_progress + v > ((t.path.length - 1 : ℕ) : ℚ)
    · rw [if_pos hp]
      dsimp only
      rcases hh : (g.filter (fun e => e.1 = lastJ)).head? with _ | e <;>
        rw [hh] <;> dsimp only
      · rfl
      · split <;> rfl
    · rw [if_neg hp]
      rfl
  · intro t2 h2
    unfold tick_trains at h2
    rw [if_neg hlen0] at h2
    dsimp only at h2
    rw [Option.map_eq_some'] at h2
    obtain ⟨t1, _, ht2⟩ := h2
    subst ht2
    exact ⟨rat_clamp_nonneg _ _ (by positivity), rat_clamp_le _ _ _ (by positivity)⟩

/-- Witness for claim C7: a single-vehicle train driven far past the end
of its two-joint path on an empty graph ends the tick with progress
exactly `path.len() - 1 = 1`. -/
theorem tick_trains_progress_clamped_witness :
    0 ≤ (⟨1, 1, [eastJoint 0, eastJoint 1]⟩ : TrainHead).path_progress ∧
      (⟨1, 1, [eastJoint 0, eastJoint 1]⟩ : TrainHead).path_progress ≤
        (((⟨1, 1, [eastJoint 0, eastJoint 1]⟩ : TrainHead).path.length - 1 : ℕ) : ℚ) :=
  (tick_trains_progress_clamped [] ⟨1, 1, [eastJoint 0, eastJoint 1]⟩ 5
    (by decide)).2 ⟨1, 1, [eastJoint 0, eastJoint 1]⟩ (by with_unfolding_all decide)

/-! ## Claim C4: double-track symmetry of reachable graphs -/

/-- A defined neighbor step means the side value was in range. -/
theorem neighbor_some_val_lt {c t : TileCoordinate} {s : TileSide}
    (h : c.neighbor s = some t) : s.val < 6 := by
  unfold TileCoordinate.neighbor at h
  split_ifs at h with h0 h1 h2 h3 h4 h5
  · subst h0; decide
  · subst h1; decide
  · subst h2; decide
  · subst h3; decide
  · subst h4; decide
  · subst h5; decide

/-- Stepping to a neighbor and back along the opposite side returns to the
start tile. -/
theorem neighbor_neighbor_opposite {c t : TileCoordinate} {s : TileSide}
    (h : c.neighbor s = some t) : t.neighbor s.opposite = some c := by
  have hv : s.val < 6 := neighbor_some_val_lt h
  obtain ⟨q, r⟩ := c
  obtain ⟨v⟩ := s
  simp only at hv
  interval_cases v
  · rw [show TileCoordinate.neighbor ⟨q, r⟩ ⟨0⟩ = some ⟨q + 1, r⟩ from rfl] at h
    injection h with h2
    subst h2
    show some (⟨q + 1 - 1, r⟩ : TileCoordinate) = some ⟨q, r⟩
    simp
  · rw [show TileCoordinate.neighbor ⟨q, r⟩ ⟨1⟩ = some ⟨q, r + 1⟩ from rfl] at h
    injection h with h2
    subst h2
    show some (⟨q, r + 1 - 1⟩ : TileCoordinate) = some ⟨q, r⟩
    simp
  · rw [show TileCoordinate.neighbor ⟨q, r⟩ ⟨2⟩ = some ⟨q - 1, r + 1⟩ from rfl] at h
    injection h with h2
    subst h2
    show some (⟨q - 1 + 1, r + 1 - 1⟩ : TileCoordinate) = some ⟨q, r⟩
    simp
  · rw [show TileCoordinate.neighbor ⟨q, r⟩ ⟨3⟩ = some ⟨q - 1, r⟩ from rfl] at h
    injection h with h2
    subst h2
    show some (⟨q - 1 + 1, r⟩ : TileCoordinate) = some ⟨q, r⟩
    simp
  · rw [show TileCoordinate.neighbor ⟨q, r⟩ ⟨4⟩ = some ⟨q, r - 1⟩ from rfl] at h
    injection h with h2
    subst h2
    show some (⟨q, r - 1 + 1⟩ : TileCoordinate) = some ⟨q, r⟩
    simp
  · rw [show TileCoordinate.neighbor ⟨q, r⟩ ⟨5⟩ = some ⟨q + 1, r - 1⟩ from rfl] at h
    injection h with h2
    subst h2
    show some (⟨q + 1 - 1, r - 1 + 1⟩ : TileCoordinate) = some ⟨q, r⟩
    simp

/-- Opposite is an involution on in-range sides. -/
theorem side_opposite_opposite {s : TileSide} (h : s.val < 6) :
    s.opposite.opposite = s := by
  obtain ⟨v⟩ := s
  simp only at h
  interval_cases v <;> decide

/-- Joint opposite is an involution wherever it is defined. -/
theorem opposite_opposite {j jo : TileFace} (h : j.opposite = some jo) :
    jo.opposite = some j := by
  unfold TileFace.opposite at h
  rw [Option.map_eq_some'] at h
  obtain ⟨t2, hn, rfl⟩ := h
  have hv : j.side.val < 6 := neighbor_some_val_lt hn
  unfold TileFace.opposite
  rw [neighbor_neighbor_opposite hn]
  simp only [Option.map_some']
  rw [side_opposite_opposite hv]

/-- Edge membership after a petgraph `add_edge`. -/
theorem mem_add_edge_snd {g : RailGraph} {u v : Joint} {x : Joint × Joint} :
    x ∈ (g.add_edge u v).2 ↔ x = (u, v) ∨ x ∈ g := by
  unfold RailGraph.add_edge
  split_ifs with hmem
  · constructor
    · exact fun hx => Or.inr hx
    · rintro (rfl | hx)
      · exact hmem
      · exact hx
  · simp [List.mem_cons]

/-- Claim C4: every rail graph reachable from the empty graph through
`add_double_track` satisfies double-track symmetry: for every stored edge
`u -> v`, the joints `v.opposite()` and `u.opposite()` are defined and the
edge `v.opposite() -> u.opposite()` is stored as well. -/
theorem reachable_double_track_symmetry (g : RailGraph) (hg : g.Reachable) :
    ∀ u v : Joint, (u, v) ∈ g →
      ∃ vo uo : Joint, v.opposite = some vo ∧ u.opposite = some uo ∧ (vo, uo) ∈ g := by
  induction hg with
  | empty =>
    intro u v h
    cases h
  | step hprev hstep ih =>
    rename_i g0 g2 tr b
    intro u v hmem
    unfold RailGraph.add_double_track at hstep
    rcases hend : tr.end_joint with _ | e <;> rw [hend] at hstep
    · cases hstep
    dsimp only at hstep
    rcases heo : e.opposite with _ | eo <;> rw [heo] at hstep
    · cases hstep
    rcases hjo : tr.joint.opposite with _ | jo <;> rw [hjo] at hstep
    · cases hstep
    dsimp only at hstep
    injection hstep with hpair
    have hg2 : g2 = ((g0.add_edge tr.joint e).2.add_edge eo jo).2 :=
      (congrArg Prod.snd hpair).symm
    subst hg2
    rw [mem_add_edge_snd, mem_add_edge_snd] at hmem
    rcases hmem with heq | heq | hold
    · have h1 : u = eo := congrArg Prod.fst heq
      have h2 : v = jo := congrArg Prod.snd heq
      subst h1
      subst h2
      refine ⟨tr.joint, e, opposite_opposite hjo, opposite_opposite heo, ?_⟩
      rw [mem_add_edge_snd, mem_add_edge_snd]
      exact Or.inr (Or.inl rfl)
    · have h1 : u = tr.joint := congrArg Prod.fst heq
      have h2 : v = e := congrArg Prod.snd heq
      subst h1
      subst h2
      refine ⟨eo, jo, heo, hjo, ?_⟩
      rw [mem_add_edge_snd]
      exact Or.inl rfl
    · obtain ⟨vo, uo, hvo, huo, hin⟩ := ih u v hold
      refine ⟨vo, uo, hvo, huo, ?_⟩
      rw [mem_add_edge_snd, mem_add_edge_snd]
      exact Or.inr (Or.inr hin)

/-- A straight track built from the east face of the origin tile. -/
def demoTrack : Track := ⟨⟨⟨0, 0⟩, TileSide.EAST⟩, TrackType.Straight⟩

/-- The graph obtained by building `demoTrack` on the empty graph. -/
def demoGraph : RailGraph :=
  [(⟨⟨0, 0⟩, ⟨3⟩⟩, ⟨⟨1, 0⟩, ⟨3⟩⟩), (⟨⟨0, 0⟩, ⟨0⟩⟩, ⟨⟨-1, 0⟩, ⟨0⟩⟩)]

/-- Witness for claim C4: the graph after one `add_double_track` on the
empty graph is reachable, and the symmetry conclusion holds at its forward
edge. -/
theorem reachable_double_track_symmetry_witness :
    ∃ vo uo : Joint, (⟨⟨-1, 0⟩, ⟨0⟩⟩ : Joint).opposite = some vo ∧
      (⟨⟨0, 0⟩, ⟨0⟩⟩ : Joint).opposite = some uo ∧ (vo, uo) ∈ demoGraph :=
  reachable_double_track_symmetry demoGraph
    (RailGraph.Reachable.step RailGraph.Reachable.empty
      (show RailGraph.add_double_track [] demoTrack = some (true, demoGraph) by decide))
    ⟨⟨0, 0⟩, ⟨0⟩⟩ ⟨⟨-1, 0⟩, ⟨0⟩⟩ (by decide)

/-! ## Claim C5: semantics of add_double_track -/

/-- The double-track symmetry predicate on graphs. -/
def RailGraph.Symm (g : RailGraph) : Prop :=
  ∀ u v : Joint, (u, v) ∈ g →
    ∃ vo uo : Joint, v.opposite = some vo ∧ u.opposite = some uo ∧ (vo, uo) ∈ g

theorem add_edge_of_mem {g : RailGraph} {u v : Joint} (h : (u, v) ∈ g) :
    g.add_edge u v = (true, g) := by
  unfold RailGraph.add_edge
  rw [if_pos h]

theorem add_edge_of_not_mem {g : RailGraph} {u v : Joint} (h : (u, v) ∉ g) :
    g.add_edge u v = (false, (u, v) :: g) := by
  unfold RailGraph.add_edge
  rw [if_neg h]

/-- The side of the end joint of a track, by track kind. -/
theorem end_joint_side {tr : Track} {e : Joint} (hend : tr.end_joint = some e) :
    e.side = (match tr.heading with
      | TrackType.Straight => tr.joint.side
      | TrackType.CurvedLeft => tr.joint.side.curve_left.opposite
      | TrackType.CurvedRight => tr.joint.side.curve_right.opposite) := by
  rcases tr with ⟨j, heading⟩
  unfold Track.end_joint TileFace.next_straight TileFace.next_left
    TileFace.next_right at hend
  cases heading <;> dsimp only at hend ⊢ <;>
    (rw [Option.map_eq_some'] at hend; obtain ⟨t2, -, rfl⟩ := hend; rfl)

/-- The forward edge and its paired reverse edge of one double track are
distinct edges (their targets differ already on the side value). -/
theorem forward_ne_reverse_edge {tr : Track} {e eo jo : Joint}
    (hend : tr.end_joint = some e)
    (hjo : tr.joint.opposite = some jo) :
    (tr.joint, e) ≠ (eo, jo) := by
  intro hc
  have h2 : e = jo := congrArg Prod.snd hc
  have hv : tr.joint.side.val < 6 := by
    unfold TileFace.opposite at hjo
    rw [Option.map_eq_some'] at hjo
    obtain ⟨t2, hn, -⟩ := hjo
    exact neighbor_some_val_lt hn
  have hjs : jo.side = tr.joint.side.opposite := by
    unfold TileFace.opposite at hjo
    rw [Option.map_eq_some'] at hjo
    obtain ⟨t2, -, rfl⟩ := hjo
    rfl
  have hes := end_joint_side hend
  rw [h2, hjs] at hes
  rcases htr : tr.joint.side with ⟨v⟩
  rw [htr] at hes hv
  simp only at hv
  rcases tr with ⟨j, heading⟩
  interval_cases v <;> cases heading <;> dsimp only at hes <;>
    exact absurd hes (by decide)

/-- Claim C5 (amended): `add_double_track` returns `true` iff the forward
edge `joint -> end` was absent; on graphs satisfying double-track symmetry
this is equivalent to neither edge existing. Calling it twice with the same
track from a state without either edge returns `true` then `false`, leaves
the second call with the unchanged graph, and the graph has gained exactly
the 2 edges of the double track, not 4. -/
theorem add_double_track_spec (g : RailGraph) (tr : Track) (e eo jo : Joint)
    (hend : tr.end_joint = some e) (heo : e.opposite = some eo)
    (hjo : tr.joint.opposite = some jo) :
    (∀ (b : Bool) (g2 : RailGraph), g.add_double_track tr = some (b, g2) →
      (b = true ↔ (tr.joint, e) ∉ g) ∧
      (g.Symm → (b = true ↔ ((tr.joint, e) ∉ g ∧ (eo, jo) ∉ g)))) ∧
    ((tr.joint, e) ∉ g → (eo, jo) ∉ g →
      g.add_double_track tr = some (true, (eo, jo) :: (tr.joint, e) :: g) ∧
      RailGraph.add_double_track ((eo, jo) :: (tr.joint, e) :: g) tr =
        some (false, (eo, jo) :: (tr.joint, e) :: g) ∧
      ((eo, jo) :: (tr.joint, e) :: g).length = g.length + 2) := by
  have hiff : g.Symm → ((tr.joint, e) ∈ g ↔ (eo, jo) ∈ g) := by
    intro hsymm
    constructor
    · intro hm
      obtain ⟨vo, uo, hvo, huo, hin⟩ := hsymm _ _ hm
      rw [heo] at hvo
      rw [hjo] at huo
      injection hvo with hvo
      injection huo with huo
      rw [hvo, huo]
      exact hin
    · intro hm
      obtain ⟨vo, uo, hvo, huo, hin⟩ := hsymm _ _ hm
      rw [opposite_opposite hjo] at hvo
      rw [opposite_opposite heo] at huo
      injection hvo with hvo
      injection huo with huo
      rw [hvo, huo]
      exact hin
  constructor
  · intro b g2 hsome
    unfold RailGraph.add_double_track at hsome
    rw [hend] at hsome
    dsimp only at hsome
    rw [heo, hjo] at hsome
    dsimp only at hsome
    injection hsome with hpair
    have hb : b = !(g.add_edge tr.joint e).1 := (congrArg Prod.fst hpair).symm
    by_cases hm : (tr.joint, e) ∈ g
    · rw [add_edge_of_mem hm] at hb
      subst hb
      constructor
      · simp [hm]
      · intro hsymm
        simp [hm]
    · rw [add_edge_of_not_mem hm] at hb
      subst hb
      constructor
      · simp [hm]
      · intro hsymm
        simp only [Bool.not_false, true_iff]
        exact ⟨hm, fun hc => hm ((hiff hsymm).mpr hc)⟩
  · intro hm1 hm2
    have hne : (eo, jo) ∉ ((tr.joint, e) :: g) := by
      intro hc
      rcases List.mem_cons.mp hc with hc1 | hc2
      · exact forward_ne_reverse_edge hend hjo hc1.symm
      · exact hm2 hc2
    refine ⟨?_, ?_, rfl⟩
    · unfold RailGraph.add_double_track
      rw [hend]
      dsimp only
      rw [heo, hjo]
      dsimp only
      rw [add_edge_of_not_mem hm1]
      dsimp only
      rw [add_edge_of_not_mem hne]
      rfl
    · unfold RailGraph.add_double_track
      rw [hend]
      dsimp only
      rw [heo, hjo]
      dsimp only
      rw [add_edge_of_mem (by exact List.mem_cons_of_mem _ (List.mem_cons_self _ _))]
      dsimp only
      rw [add_edge_of_mem (List.mem_cons_self _ _)]
      rfl

/-- Counterexample to claim C5 as stated over every graph state: on a graph
holding only the reverse edge `opposite(end) -> opposite(joint)` of the
track (such states are loadable from a savegame, which is not validated
for double-track symmetry), `add_double_track` still returns `true`
although one of the two edges existed before the call. -/
theorem add_double_track_true_despite_existing_edge :
    RailGraph.add_double_track [(⟨⟨0, 0⟩, ⟨3⟩⟩, ⟨⟨1, 0⟩, ⟨3⟩⟩)] demoTrack =
      some (true, [(⟨⟨0, 0⟩, ⟨0⟩⟩, ⟨⟨-1, 0⟩, ⟨0⟩⟩), (⟨⟨0, 0⟩, ⟨3⟩⟩, ⟨⟨1, 0⟩, ⟨3⟩⟩)]) ∧
    demoTrack.end_joint = some ⟨⟨-1, 0⟩, ⟨0⟩⟩ ∧
    (⟨⟨-1, 0⟩, ⟨0⟩⟩ : Joint).opposite = some ⟨⟨0, 0⟩, ⟨3⟩⟩ ∧
    demoTrack.joint.opposite = some ⟨⟨1, 0⟩, ⟨3⟩⟩ ∧
    ((⟨⟨0, 0⟩, ⟨3⟩⟩, ⟨⟨1, 0⟩, ⟨3⟩⟩) : Joint × Joint) ∈
      ([(⟨⟨0, 0⟩, ⟨3⟩⟩, ⟨⟨1, 0⟩, ⟨3⟩⟩)] : RailGraph) := by
  refine ⟨by decide, by decide, by decide, by decide, by decide⟩

/-- Witness for claim C5 at the empty graph and the demo track. -/
theorem add_double_track_spec_witness :
    RailGraph.add_double_track [] demoTrack =
      some (true, [(⟨⟨0, 0⟩, ⟨3⟩⟩, ⟨⟨1, 0⟩, ⟨3⟩⟩), (⟨⟨0, 0⟩, ⟨0⟩⟩, ⟨⟨-1, 0⟩, ⟨0⟩⟩)]) ∧
    RailGraph.add_double_track
        [(⟨⟨0, 0⟩, ⟨3⟩⟩, ⟨⟨1, 0⟩, ⟨3⟩⟩), (⟨⟨0, 0⟩, ⟨0⟩⟩, ⟨⟨-1, 0⟩, ⟨0⟩⟩)] demoTrack =
      some (false, [(⟨⟨0, 0⟩, ⟨3⟩⟩, ⟨⟨1, 0⟩, ⟨3⟩⟩), (⟨⟨0, 0⟩, ⟨0⟩⟩, ⟨⟨-1, 0⟩, ⟨0⟩⟩)]) ∧
    ([(⟨⟨0, 0⟩, ⟨3⟩⟩, ⟨⟨1, 0⟩, ⟨3⟩⟩), (⟨⟨0, 0⟩, ⟨0⟩⟩, ⟨⟨-1, 0⟩, ⟨0⟩⟩)] :
      RailGraph).length = ([] : RailGraph).length + 2 :=
  (add_double_track_spec [] demoTrack ⟨⟨-1, 0⟩, ⟨0⟩⟩ ⟨⟨0, 0⟩, ⟨3⟩⟩ ⟨⟨1, 0⟩, ⟨3⟩⟩
    (by decide) (by decide) (by decide)).2 (by decide) (by decide)

/-! ## Claim C6: path extension trims to a bounded window -/

/-- Claim C6 (amended): in `auto_extend_train_path` (`src/driving.rs`) the
claim holds as stated: whenever a neighbor is appended and the path length
after the append is at least `length + 5`, the same step removes the oldest
element and decrements the progress by one, and the path length stays below
`max (old length) (length + 4)`. In the stale `tick_trains`
(`src/trains.rs`) the trim is instead keyed on the length before the
append: the oldest element is removed and the progress decremented exactly
when the pre-append length is already at least `length + 5`, so one step can
end at length `length + 5` without a removal; the path length still never
exceeds `max (old length) (length + 5)`. -/
theorem path_extension_trim_spec :
    (∀ (g : RailGraph) (t : Trail) (isPlayer : Bool) (preferred : TrackType)
        (pe nx : Joint),
      t.path.getLast? = some pe →
      t.path_progress + 1/2 > ((t.path.length - 1 : ℕ) : ℚ) →
      select_next g pe isPlayer preferred = some (some nx) →
      (t.length + 5 ≤ (t.path ++ [nx]).length →
        auto_extend_train_path g t isPlayer preferred =
          some ⟨(t.path ++ [nx]).drop 1, t.path_progress - 1, t.length⟩) ∧
      ((t.path ++ [nx]).length < t.length + 5 →
        auto_extend_train_path g t isPlayer preferred =
          some ⟨t.path ++ [nx], t.path_progress, t.length⟩)) ∧
    (∀ (g : RailGraph) (t : Trail) (isPlayer : Bool) (preferred : TrackType)
        (t2 : Trail),
      auto_extend_train_path g t isPlayer preferred = some t2 →
      t2.path.length ≤ max t.path.length (t.length + 4)) ∧
    (∀ (g : RailGraph) (t : TrainHead) (v : ℚ) (pe : Joint) (e : Joint × Joint),
      t.path.getLast? = some pe →
      (g.filter (fun x => x.1 = pe)).head? = some e →
      t.path_progress + v > ((t.path.length - 1 : ℕ) : ℚ) →
      t.length + 5 ≤ t.path.length →
      tick_trains g t v = some ⟨rat_clamp (t.path_progress + v - 1) 0
        (((t.path.drop 1 ++ [e.2]).length - 1 : ℕ) : ℚ), t.length,
        t.path.drop 1 ++ [e.2]⟩) ∧
    (∀ (g : RailGraph) (t : TrainHead) (v : ℚ) (t2 : TrainHead),
      t.path ≠ [] → tick_trains g t v = some t2 →
      t2.path.length ≤ max t.path.length (t.length + 5)) := by
  refine ⟨?_, ?_, ?_, ?_⟩
  · intro g t isPlayer preferred pe nx hpe hprog hsel
    have hne : t.path ≠ [] := by
      intro hc
      rw [hc] at hpe
      cases hpe
    have hlen0 : ¬t.path.length = 0 := fun hc => hne (List.length_eq_zero.mp hc)
    unfold auto_extend_train_path
    rw [if_neg hlen0]
    dsimp only
    rw [if_pos hprog, hpe]
    dsimp only
    rw [hsel]
    dsimp only
    constructor
    · intro h5
      rw [if_pos h5]
    · intro h5
      rw [if_neg (by omega)]
  · intro g t isPlayer preferred t2 h2
    unfold auto_extend_train_path at h2
    by_cases hlen0 : t.path.length = 0
    · rw [if_pos hlen0] at h2
      cases h2
    rw [if_neg hlen0] at h2
    dsimp only at h2
    by_cases hprog : t.path_progress + 1/2 > ((t.path.length - 1 : ℕ) : ℚ)
    · rw [if_pos hprog] at h2
      rcases hpe : t.path.getLast? with _ | pe <;> rw [hpe] at h2 <;> (try dsimp only at h2)
      · cases h2
      rcases hsel : select_next g pe isPlayer preferred with _ | o <;>
        rw [hsel] at h2 <;> (try dsimp only at h2)
      · cases h2
      rcases o with _ | nx <;> (try dsimp only at h2)
      · injection h2 with h2
        subst h2
        exact le_max_left _ _
      by_cases h5 : t.length + 5 ≤ (t.path ++ [nx]).length
      · rw [if_pos h5] at h2
        injection h2 with h2
        subst h2
        simp only [List.length_drop, List.length_append, List.length_cons,
          List.length_nil]
        exact le_trans (by omega) (le_max_left _ _)
      · rw [if_neg h5] at h2
        injection h2 with h2
        subst h2
        simp only [List.length_append, List.length_cons, List.length_nil] at h5 ⊢
        exact le_trans (by omega) (le_max_right _ _)
    · rw [if_neg hprog] at h2
      injection h2 with h2
      subst h2
      exact le_max_left _ _
  · intro g t v pe e hpe hh hp h5
    have hne : t.path ≠ [] := by
      intro hc
      rw [hc] at hpe
      cases hpe
    have hlen0 : ¬t.path.length = 0 := fun hc => hne (List.length_eq_zero.mp hc)
    unfold tick_trains
    rw [if_neg hlen0]
    dsimp only
    rw [if_pos hp, hpe]
    dsimp only
    rw [hh]
    dsimp only
    rw [if_pos h5]
    rfl
  · intro g t v t2 hne h2
    have hlen0 : ¬t.path.length = 0 := fun hc => hne (List.length_eq_zero.mp hc)
    unfold tick_trains at h2
    rw [if_neg hlen0] at h2
    dsimp only at h2
    by_cases hp : t.path_progress + v > ((t.path.length - 1 : ℕ) : ℚ)
    · rw [if_pos hp] at h2
      rcases hpe : t.path.getLast? with _ | pe <;> rw [hpe] at h2 <;> (try dsimp only at h2)
      · cases h2
      rcases hh : (g.filter (fun x => x.1 = pe)).head? with _ | e <;>
        rw [hh] at h2 <;> (try dsimp only at h2)
      · injection h2 with h2
        subst h2
        exact le_max_left _ _
      by_cases h5 : t.length + 5 ≤ t.path.length
      · rw [if_pos h5] at h2
        injection h2 with h2
        subst h2
        simp only [List.length_append, List.length_drop, List.length_cons,
          List.length_nil]
        exact le_trans (by omega) (le_max_left _ _)
      · rw [if_neg h5] at h2
        injection h2 with h2
        subst h2
        simp only [List.length_append, List.length_cons, List.length_nil]
        exact le_trans (by omega) (le_max_right _ _)
    · rw [if_neg hp] at h2
      injection h2 with h2
      subst h2
      exact le_max_left _ _

/-! ## Claim C3: reversing a stationary train -/

/-- Replacing every joint by its opposite preserves the list length. -/
theorem length_opposite_all :
    ∀ {l l2 : List Joint}, opposite_all l = some l2 → l2.length = l.length := by
  intro l
  induction l with
  | nil =>
    intro l2 h
    injection h with h
    subst h
    rfl
  | cons a rest ih =>
    intro l2 h
    unfold opposite_all at h
    rcases ha : a.opposite with _ | ao <;> rw [ha] at h
    · cases h
    rcases hr : opposite_all rest with _ | ros <;> rw [hr] at h
    · cases h
    dsimp only at h
    injection h with h
    subst h
    simp only [List.length_cons, ih hr]

/-- Claim C3: for a train with velocity zero, `reverse_train_system`
reverses the path order with every joint replaced by its opposite, sets
`path_progress` to `path.len() - old_progress + length - 1`, and sets every
owned vehicle index to `length - old_position - 1`; the
`controller.trim_front()` call computes a view that is discarded, so no
path element is dropped. -/
theorem reverse_train_system_spec (t : Trail) (wagons : List (Nat × Nat))
    (revPath : List Joint)
    (hrev : opposite_all t.path.reverse = some revPath) :
    reverse_train_system t 0 wagons =
      some (⟨revPath,
        (t.path.length : ℚ) - t.path_progress + (t.length : ℚ) - 1, t.length⟩,
        wagons.map (fun p => (p.1, t.length - p.2 - 1))) ∧
    revPath.length = t.path.length := by
  have hl : revPath.length = t.path.length := by
    rw [length_opposite_all hrev, List.length_reverse]
  constructor
  · unfold reverse_train_system
    rw [if_neg (by simp)]
    rw [hrev]
    dsimp only
    rw [hl]
  · exact hl

/-- Witness for claim C3: a three-joint eastbound trail with one vehicle at
position 0, reversed while stationary. -/
theorem reverse_train_system_spec_witness :
    (reverse_train_system ⟨[eastJoint 0, eastJoint 1, eastJoint 2], 2, 1⟩ 0
        [(7, 0)] =
      some (⟨[⟨⟨3, 0⟩, ⟨3⟩⟩, ⟨⟨2, 0⟩, ⟨3⟩⟩, ⟨⟨1, 0⟩, ⟨3⟩⟩],
        (((3 : ℕ) : ℚ)) - 2 + (((1 : ℕ) : ℚ)) - 1, 1⟩,
        [(7, 0)].map (fun p => (p.1, 1 - p.2 - 1)))) ∧
    ([⟨⟨3, 0⟩, ⟨3⟩⟩, ⟨⟨2, 0⟩, ⟨3⟩⟩, ⟨⟨1, 0⟩, ⟨3⟩⟩] : List Joint).length =
      ([eastJoint 0, eastJoint 1, eastJoint 2] : List Joint).length :=
  reverse_train_system_spec ⟨[eastJoint 0, eastJoint 1, eastJoint 2], 2, 1⟩
    [(7, 0)] [⟨⟨3, 0⟩, ⟨3⟩⟩, ⟨⟨2, 0⟩, ⟨3⟩⟩, ⟨⟨1, 0⟩, ⟨3⟩⟩] (by decide)

/-- A train one step short of the trimming margin: one vehicle, five path
elements. -/
def tickSixTrain : TrainHead :=
  ⟨4, 1, [eastJoint 0, eastJoint 1, eastJoint 2, eastJoint 3, eastJoint 4]⟩

/-- Counterexample to claim C6 as stated, on the `tick_trains` system
(`src/trains.rs` lines 373 to 405, cited by the claim): the tick appends a
neighbor, after which the path length equals `length + 5`, yet the same
step neither removed the oldest path element (the head is still the old
head) nor decremented the progress (it only grew by the velocity), because
`tick_trains` checks the trim condition before the push, not after. -/
theorem tick_trains_post_append_threshold_no_trim :
    tick_trains [(eastJoint 4, eastJoint 5)] tickSixTrain (1/2) =
      some ⟨9/2, 1, [eastJoint 0, eastJoint 1, eastJoint 2, eastJoint 3,
        eastJoint 4, eastJoint 5]⟩ ∧
    ([eastJoint 0, eastJoint 1, eastJoint 2, eastJoint 3, eastJoint 4,
      eastJoint 5].length = tickSixTrain.length + 5) ∧
    ([eastJoint 0, eastJoint 1, eastJoint 2, eastJoint 3, eastJoint 4,
      eastJoint 5].length = tickSixTrain.path.length + 1) ∧
    ([eastJoint 0, eastJoint 1, eastJoint 2, eastJoint 3, eastJoint 4,
      eastJoint 5].head? = tickSixTrain.path.head?) ∧
    ((9/2 : ℚ) = tickSixTrain.path_progress + 1/2) := by
  refine ⟨by with_unfolding_all decide, by decide, by decide, by decide,
    by with_unfolding_all decide⟩

/-- Witness for claim C6: the same configuration run through
`auto_extend_train_path` does trim and decrement in the same step, and the
`tick_trains` trim fires one step later, at pre-append length
`length + 5`. -/
theorem path_extension_trim_spec_witness :
    (auto_extend_train_path [(eastJoint 4, eastJoint 5)]
        ⟨[eastJoint 0, eastJoint 1, eastJoint 2, eastJoint 3, eastJoint 4], 4, 1⟩
        false TrackType.Straight =
      some ⟨([eastJoint 0, eastJoint 1, eastJoint 2, eastJoint 3, eastJoint 4] ++
        [eastJoint 5]).drop 1, 4 - 1, 1⟩) ∧
    (tick_trains [(eastJoint 5, eastJoint 6)]
        ⟨5, 1, [eastJoint 0, eastJoint 1, eastJoint 2, eastJoint 3, eastJoint 4,
          eastJoint 5]⟩ (1/2) =
      some ⟨rat_clamp (5 + 1/2 - 1) 0
        ((([eastJoint 0, eastJoint 1, eastJoint 2, eastJoint 3, eastJoint 4,
          eastJoint 5].drop 1 ++ [eastJoint 6]).length - 1 : ℕ) : ℚ), 1,
        [eastJoint 0, eastJoint 1, eastJoint 2, eastJoint 3, eastJoint 4,
          eastJoint 5].drop 1 ++ [eastJoint 6]⟩) := by
  constructor
  · exact (path_extension_trim_spec.1 [(eastJoint 4, eastJoint 5)]
      ⟨[eastJoint 0, eastJoint 1, eastJoint 2, eastJoint 3, eastJoint 4], 4, 1⟩
      false TrackType.Straight (eastJoint 4) (eastJoint 5)
      (by decide) (by with_unfolding_all decide) (by decide)).1 (by decide)
  · exact path_extension_trim_spec.2.2.1 [(eastJoint 5, eastJoint 6)]
      ⟨5, 1, [eastJoint 0, eastJoint 1, eastJoint 2, eastJoint 3, eastJoint 4,
        eastJoint 5]⟩ (1/2) (eastJoint 5) (eastJoint 5, eastJoint 6)
      (by decide) (by decide) (by with_unfolding_all decide) (by decide)

/-! ## Claim C2: uncoupling -/

theorem i16_of_u16_small {k : Nat} (h : k < 32768) : (i16_of_u16 k) = (k : Int) := by
  unfold i16_of_u16
  have hm : k % 65536 = k := Nat.mod_eq_of_lt (by omega)
  rw [hm, if_pos h]

theorem u16_sat_sub_exact {pos k : Nat} (hk : k ≤ pos) (hp : pos < 65536) :
    u16_saturating_add_signed pos (-(k : Int)) = pos - k := by
  unfold u16_saturating_add_signed
  simp only [min_def, max_def]
  split_ifs <;> omega

/-- Two rows of a list with no duplicate entity ids that share an id are
the same row. -/
theorem nodup_fst_eq {α : Type _} {L : List (Nat × α)}
    (h : (L.map (fun v => v.1)).Nodup)
    {u v : Nat × α} (hu : u ∈ L) (hv : v ∈ L) (heq : u.1 = v.1) : u = v := by
  induction L with
  | nil => cases hu
  | cons a L ih =>
    simp only [List.map_cons, List.nodup_cons] at h
    rcases List.mem_cons.mp hu with rfl | hu2 <;>
      rcases List.mem_cons.mp hv with rfl | hv2
    · rfl
    · exact absurd (heq ▸ List.mem_map_of_mem (fun x => x.1) hv2) h.1
    · exact absurd (heq ▸ List.mem_map_of_mem (fun x => x.1) hu2) h.1
    · exact ih h.2 hu2 hv2

/-- With unique entity ids, a row id appears among the ids of the filtered
rows exactly when the row itself passes the filter. -/
theorem mem_filter_map_fst_iff {L : List (Nat × Nat × Nat)}
    (cond : Nat × Nat × Nat → Bool)
    (hn : (L.map (fun v => v.1)).Nodup) {v : Nat × Nat × Nat} (hv : v ∈ L) :
    (v.1 ∈ (L.filter cond).map (fun u => u.1)) ↔ cond v := by
  constructor
  · intro h
    obtain ⟨u, hu, hufst⟩ := List.mem_map.mp h
    obtain ⟨huL, hucond⟩ := List.mem_filter.mp hu
    obtain rfl := nodup_fst_eq hn huL hv hufst
    exact hucond
  · intro h
    exact List.mem_map_of_mem _ (List.mem_filter.mpr ⟨hv, h⟩)

/-- `find?` on the first component commutes with mapping a function that
preserves the first component. -/
theorem find?_fst_map {α : Type _} (L : List (Nat × α)) (f : Nat × α → Nat × α)
    (hf : ∀ p, (f p).1 = p.1) (id : Nat) :
    (L.map f).find? (fun p => p.1 = id) =
      (L.find? (fun p => p.1 = id)).map f := by
  induction L with
  | nil => rfl
  | cons a L ih =>
    simp only [List.map_cons]
    by_cases ha : a.1 = id
    · rw [List.find?_cons_of_pos _ (by simp [hf, ha]),
        List.find?_cons_of_pos _ (by simp [ha])]
      rfl
    · rw [List.find?_cons_of_neg _ (by simp [hf, ha]),
        List.find?_cons_of_neg _ (by simp [ha])]
      exact ih

/-- Claim C2 (amended): uncoupling a train of length `L` at a fence-post
index `0 < k < L` spawns a back train whose trail keeps the cloned (and
lead-trimmed) path with progress `old - k` and length `L - k`, reparents
exactly the vehicles with index at least `k` to it subtracting `k` from
their indices, and shrinks the original train to length `k`; uncoupling at
`k = 0` or `k = L` performs no mutation. The index arithmetic holds as
claimed only for `k < 32768`: the offset is passed through `as i16`, which
wraps for larger `k` (see the counterexample). -/
theorem uncouple_spec (w : World) (train k newId : Nat) (trail : Trail)
    (hlk : w.lookupTrain train = some trail)
    (hk : k ≤ trail.length)
    (hk15 : k < 32768)
    (hfresh_t : ∀ p ∈ w.trains, p.1 ≠ newId)
    (hfresh_v : ∀ v ∈ w.vehicles, v.2.1 ≠ newId)
    (hids : (w.vehicles.map (fun v => v.1)).Nodup)
    (hu16 : ∀ v ∈ w.vehicles, v.2.2 < 65536) :
    ((k = 0 ∨ k = trail.length) → w.uncouple train k newId = some w) ∧
    (0 < k → k < trail.length →
      ∃ w2, w.uncouple train k newId = some w2 ∧
        w2.lookupTrain newId =
          some ⟨trail.path.take (⌈trail.path_progress - (k : ℚ)⌉ + 2).toNat,
            trail.path_progress - (k : ℚ), trail.length - k⟩ ∧
        w2.lookupTrain train = some ⟨trail.path, trail.path_progress, k⟩ ∧
        w2.vehicles = w.vehicles.map (fun v =>
          if v.2.1 = train ∧ k ≤ v.2.2 then (v.1, newId, v.2.2 - k) else v) ∧
        (∀ id, id ≠ train → id ≠ newId →
          w2.lookupTrain id = w.lookupTrain id)) := by
  obtain ⟨p, hfind, hp2⟩ := Option.map_eq_some'.mp hlk
  have hp1 : p.1 = train := by simpa using List.find?_some hfind
  have hpmem : p ∈ w.trains := List.mem_of_find?_eq_some hfind
  have htn : train ≠ newId := hp1 ▸ hfresh_t p hpmem
  constructor
  · intro hedge
    unfold World.uncouple
    rw [hlk]
    dsimp only
    rw [if_neg (not_lt_of_ge hk)]
    rw [if_pos (by omega)]
  · intro hk0 hkL
    unfold World.uncouple
    rw [hlk]
    dsimp only
    rw [if_neg (not_lt_of_ge hk)]
    rw [if_neg (by omega)]
    rw [i16_of_u16_small hk15]
    rw [if_neg (by omega)]
    refine ⟨_, rfl, ?_, ?_, ?_, ?_⟩
    · unfold World.set_train_length World.reindex_train World.reparent
      unfold World.lookupTrain
      simp only [List.map_cons]
      rw [if_neg (Ne.symm htn)]
      rw [List.find?_cons_of_pos _ (by simp)]
      rfl
    · unfold World.set_train_length World.reindex_train World.reparent
      unfold World.lookupTrain
      simp only [List.map_cons]
      rw [if_neg (Ne.symm htn)]
      rw [List.find?_cons_of_neg _ (by simp [Ne.symm htn])]
      rw [find?_fst_map _ _ (fun q => by split <;> rfl)]
      rw [hfind]
      simp only [Option.map_some']
      rw [if_pos hp1, hp2]
    · unfold World.set_train_length World.reindex_train World.reparent
      dsimp only
      rw [List.map_map]
      apply List.map_congr_left
      intro v hv
      simp only [Function.comp_apply]
      by_cases hcond : v.2.1 = train ∧ k ≤ v.2.2
      · have hmem2 : v.1 ∈ ((w.vehicles.filter
            (fun u => u.2.1 = train ∧ k ≤ u.2.2)).map (fun u => u.1)) :=
          (mem_filter_map_fst_iff _ hids hv).mpr (by simpa using hcond)
        rw [if_pos hmem2]
        dsimp only
        rw [if_pos rfl]
        rw [u16_sat_sub_exact hcond.2 (hu16 v hv)]
        rw [if_pos hcond]
      · have hmem2 : ¬v.1 ∈ ((w.vehicles.filter
            (fun u => u.2.1 = train ∧ k ≤ u.2.2)).map (fun u => u.1)) := by
          rw [mem_filter_map_fst_iff _ hids hv]
          simpa using hcond
        rw [if_neg hmem2]
        rw [if_neg (by simpa using hfresh_v v hv)]
        rw [if_neg hcond]
    · intro id hid1 hid2
      unfold World.set_train_length World.reindex_train World.reparent
      unfold World.lookupTrain
      simp only [List.map_cons]
      rw [if_neg (Ne.symm htn)]
      rw [List.find?_cons_of_neg _ (by simp [Ne.symm hid2])]
      rw [find?_fst_map _ _ (fun q => by split <;> rfl)]
      rcases hfid : w.trains.find? (fun p => p.1 = id) with _ | e <;> rw [hfid]
      · rfl
      · have he1 : e.1 = id := by simpa using List.find?_some hfid
        simp only [Option.map_some']
        rw [if_neg (by rw [he1]; exact hid1)]

/-- A world with one long train (length 50000) and one vehicle indexed
beyond the i16 range. -/
def bigKWorld : World :=
  ⟨[(0, ⟨[eastJoint 0, eastJoint 1], 1, 50000⟩)], [(100, 0, 40000)]⟩

/-- Counterexample to claim C2 as stated for every fence-post index: at
`k = 40000` the offset `-(front_length as i16)` wraps to `+25536`, so the
reparented vehicle with index 40000 ends at the saturated index 65535
instead of `40000 - 40000 = 0`. -/
theorem uncouple_reindex_wrap_counterexample :
    (World.uncouple bigKWorld 0 40000 1).map World.vehicles =
      some [(100, 1, 65535)] ∧
    i16_of_u16 40000 = -25536 ∧
    (65535 : Nat) ≠ 40000 - 40000 := by
  refine ⟨by decide, by decide, by decide⟩

/-- The concrete uncoupling scenario for the witness: a two-vehicle train
with a four-joint path, split at fence post 1. -/
def uTrailW : Trail := ⟨[eastJoint 0, eastJoint 1, eastJoint 2, eastJoint 3], 3, 2⟩

/-- The world holding the witness train and its two vehicles. -/
def uWorldW : World := ⟨[(0, uTrailW)], [(100, 0, 0), (101, 0, 1)]⟩

/-- Witness for claim C2 at the concrete two-vehicle world. -/
theorem uncouple_spec_witness :
    ∃ w2, uWorldW.uncouple 0 1 7 = some w2 ∧
      w2.lookupTrain 7 =
        some ⟨uTrailW.path.take (⌈uTrailW.path_progress - ((1 : ℕ) : ℚ)⌉ + 2).toNat,
          uTrailW.path_progress - ((1 : ℕ) : ℚ), uTrailW.length - 1⟩ ∧
      w2.lookupTrain 0 = some ⟨uTrailW.path, uTrailW.path_progress, 1⟩ ∧
      w2.vehicles = uWorldW.vehicles.map (fun v =>
        if v.2.1 = 0 ∧ 1 ≤ v.2.2 then (v.1, 7, v.2.2 - 1) else v) ∧
      (∀ id, id ≠ 0 → id ≠ 7 → w2.lookupTrain id = uWorldW.lookupTrain id) :=
  (uncouple_spec uWorldW 0 1 7 uTrailW (by decide) (by decide) (by decide)
    (by decide) (by decide) (by decide) (by decide)).2 (by decide) (by decide)

/-! ## Claim C1: coupling without a path overlap is rejected -/

/-- If no element of the trimmed front part equals the last element of the
trimmed back part (in particular when the two trimmed paths share no joint
at all), the splice of `clone_from_parts` fails. -/
theorem clone_from_parts_none_of_disjoint {f b : Trail}
    (hdisj : ∀ j ∈ f.trim_back, j ∉ b.trim_front) :
    Trail.clone_from_parts f b = none := by
  unfold Trail.clone_from_parts
  have hfind : (f.trim_back).findIdx?
      (fun j => b.trim_front.getLast? = some j) = none := by
    rw [List.findIdx?_eq_none_iff]
    intro j hj
    rcases hgl : b.trim_front.getLast? with _ | jl
    · simp
    · simp only [Option.some.injEq, decide_eq_false_iff_not]
      intro hc
      exact hdisj j hj (hc ▸ List.mem_of_getLast?_eq_some hgl)
  dsimp only
  rw [hfind]

/-- Claim C1: a coupling attempt whose oriented trimmed paths share no
overlap joint is rejected with no mutation at all: the resulting world is
the input world (same trails, same vehicle indices, same parents, same
entities). -/
theorem couple_trains_rejects_without_overlap (w : World) (t1 : Nat)
    (d1 : BumperNode) (t2 : Nat) (d2 : BumperNode) (f b : Trail)
    (hor : w.orientedCloneInput t1 d1 t2 d2 = some (f, b))
    (hdisj : ∀ j ∈ f.trim_back, j ∉ b.trim_front) :
    w.couple_trains t1 d1 t2 d2 = some w := by
  have hclone := clone_from_parts_none_of_disjoint hdisj
  unfold World.orientedCloneInput at hor
  unfold World.couple_trains
  rcases hl1 : w.lookupTrain t1 with _ | trail1 <;>
    (rw [hl1] at hor; (try dsimp only at hor ⊢))
  rcases hl2 : w.lookupTrain t2 with _ | trail2 <;>
    (rw [hl2] at hor; (try dsimp only at hor ⊢))
  cases d1 <;> cases d2 <;> unfold coupleOrientation at hor ⊢ <;>
    dsimp only at hor ⊢
  · rw [if_pos rfl] at hor ⊢
    rcases hrev : trail1.reverse with _ | f2 <;> rw [hrev] at hor <;> (try dsimp only at hor ⊢)
    · cases hor
    injection hor with hp
    rw [Prod.mk.injEq] at hp
    obtain ⟨h1, h2⟩ := hp
    subst h1
    subst h2
    rw [hclone]
  · injection hor with hp
    rw [Prod.mk.injEq] at hp
    obtain ⟨h1, h2⟩ := hp
    subst h1
    subst h2
    rw [hclone]
  · injection hor with hp
    rw [Prod.mk.injEq] at hp
    obtain ⟨h1, h2⟩ := hp
    subst h1
    subst h2
    rw [hclone]
  · by_cases ht : t2 = t1
    · rw [if_pos ht] at hor ⊢
      rcases hrev : trail1.reverse with _ | f2 <;> rw [hrev] at hor <;> (try dsimp only at hor ⊢)
      · cases hor
      injection hor with hp
      rw [Prod.mk.injEq] at hp
      obtain ⟨h1, h2⟩ := hp
      subst h1
      subst h2
      rw [hclone]
    · rw [if_neg ht, if_pos rfl] at hor ⊢
      rcases hrev : trail2.reverse with _ | b2 <;> rw [hrev] at hor <;> (try dsimp only at hor ⊢)
      · cases hor
      injection hor with hp
      rw [Prod.mk.injEq] at hp
      obtain ⟨h1, h2⟩ := hp
      subst h1
      subst h2
      rw [hclone]

/-- Two spatially separate single-vehicle trains for the coupling witness:
their paths share no joint. -/
def cWorldW : World :=
  ⟨[(1, ⟨[eastJoint 0, eastJoint 1], 1, 1⟩),
    (2, ⟨[⟨⟨0, 5⟩, ⟨0⟩⟩, ⟨⟨1, 5⟩, ⟨0⟩⟩], 1, 1⟩)], []⟩

/-- Witness for claim C1: a front-back bumper contact between the two
disjoint trains leaves the world exactly unchanged. -/
theorem couple_trains_rejects_without_overlap_witness :
    World.couple_trains cWorldW 1 BumperNode.Front 2 BumperNode.Back =
      some cWorldW :=
  couple_trains_rejects_without_overlap cWorldW 1 BumperNode.Front 2
    BumperNode.Back ⟨[⟨⟨0, 5⟩, ⟨0⟩⟩, ⟨⟨1, 5⟩, ⟨0⟩⟩], 1, 1⟩
    ⟨[eastJoint 0, eastJoint 1], 1, 1⟩
    (by with_unfolding_all decide) (by with_unfolding_all decide)

end HexRails
